import Mathlib

/-!
Verification development for a Rust access layer over the leveldb storage
engine.  The definitions below are a shallow embedding of the crate's
`src/database` modules: byte strings are `List Nat`, native handles are
explicit state values, fallible calls return `Except` or pair the result
with an `Option String` error out-parameter, and the external engine
(reached through the `leveldb_*` C calls) is modelled from its documented
contract in the spec's external-interface section.
-/

set_option maxHeartbeats 1000000

/-- Byte strings (keys and values) are modelled as lists of naturals. -/
abbrev Bytes := List Nat

/-- Bytewise (memcmp-style) comparison: the engine's default key order. -/
def byteCompare : Bytes → Bytes → Ordering
  | [], [] => Ordering.eq
  | [], _ :: _ => Ordering.lt
  | _ :: _, [] => Ordering.gt
  | a :: as, b :: bs =>
    if a < b then Ordering.lt
    else if b < a then Ordering.gt
    else byteCompare as bs

/-- Key `a` is at most key `b` in the engine's bytewise order. -/
def byteLe (a b : Bytes) : Prop := byteCompare a b ≠ Ordering.gt

/-- Key `a` is strictly below key `b` in the engine's bytewise order. -/
def byteLt (a b : Bytes) : Prop := byteCompare a b = Ordering.lt

instance (a b : Bytes) : Decidable (byteLe a b) := by
  unfold byteLe; infer_instance

instance (a b : Bytes) : Decidable (byteLt a b) := by
  unfold byteLt; infer_instance

theorem byteCompare_self (a : Bytes) : byteCompare a a = Ordering.eq := by
  induction a with
  | nil => rfl
  | cons x xs ih => simp [byteCompare, ih]

theorem byteLe_refl (a : Bytes) : byteLe a a := by
  simp [byteLe, byteCompare_self]

theorem byteLe_trans {a b c : Bytes} (h1 : byteLe a b) (h2 : byteLe b c) :
    byteLe a c := by
  induction a generalizing b c with
  | nil =>
    cases c with
    | nil => exact byteLe_refl []
    | cons z zs => simp [byteLe, byteCompare]
  | cons x xs ih =>
    cases b with
    | nil => exact absurd rfl h1
    | cons y ys =>
      cases c with
      | nil => exact absurd rfl h2
      | cons z zs =>
        simp only [byteLe, byteCompare] at h1 h2 ⊢
        by_cases hxy : x < y
        · by_cases hyz : y < z
          · have hxz : x < z := Nat.lt_trans hxy hyz
            simp [hxz]
          · by_cases hzy : z < y
            · simp [hyz, hzy] at h2
            · have hyz' : y = z := Nat.le_antisymm (Nat.le_of_not_lt hzy) (Nat.le_of_not_lt hyz)
              have hxz : x < z := hyz' ▸ hxy
              simp [hxz]
        · by_cases hyx : y < x
          · simp [hxy, hyx] at h1
          · have hxy' : x = y := Nat.le_antisymm (Nat.le_of_not_lt hyx) (Nat.le_of_not_lt hxy)
            simp only [hxy, hyx, if_neg, reduceIte] at h1
            by_cases hyz : y < z
            · have hxz : x < z := hxy' ▸ hyz
              simp [hxz]
            · by_cases hzy : z < y
              · simp [hyz, hzy] at h2
              · have hyz' : y = z := Nat.le_antisymm (Nat.le_of_not_lt hzy) (Nat.le_of_not_lt hyz)
                simp only [hyz, hzy, if_neg, reduceIte] at h2
                have hxz : ¬ x < z := by omega
                have hzx : ¬ z < x := by omega
                simp only [hxz, hzx, if_neg, reduceIte]
                exact ih h1 h2

/-- Position at which the engine's `seek` lands: the index of the first
entry whose key is at least the target, or the length when none is. -/
def seekPos (k : Bytes) : List (Bytes × Bytes) → Nat
  | [] => 0
  | e :: rest => if byteLe k e.1 then 0 else seekPos k rest + 1

theorem seekPos_le_length (k : Bytes) (l : List (Bytes × Bytes)) :
    seekPos k l ≤ l.length := by
  induction l with
  | nil => simp [seekPos]
  | cons e rest ih =>
    simp only [seekPos, List.length_cons]
    by_cases h : byteLe k e.1
    · simp [h]
    · simp [h]; omega

theorem seekPos_found (k : Bytes) (l : List (Bytes × Bytes))
    (h : seekPos k l < l.length) :
    byteLe k (l.get ⟨seekPos k l, h⟩).1 := by
  induction l with
  | nil => simp [seekPos] at h
  | cons e rest ih =>
    by_cases hh : byteLe k e.1
    · simp [seekPos, hh]
    · have h' : seekPos k rest < rest.length := by
        simp only [seekPos, hh, if_neg, reduceIte, List.length_cons] at h
        omega
      have := ih h'
      simp only [seekPos, hh, reduceIte]
      simpa using this

theorem seekPos_min (k : Bytes) (l : List (Bytes × Bytes)) (i : Nat)
    (hi : i < seekPos k l) (hl : i < l.length) :
    ¬ byteLe k (l.get ⟨i, hl⟩).1 := by
  induction l generalizing i with
  | nil => simp at hl
  | cons e rest ih =>
    by_cases hh : byteLe k e.1
    · simp [seekPos, hh] at hi
    · cases i with
      | zero => simpa using hh
      | succ j =>
        simp only [seekPos, hh, reduceIte] at hi
        have hj : j < seekPos k rest := by omega
        have hjl : j < rest.length := by simpa using Nat.lt_of_succ_lt_succ hl
        have := ih j hj hjl
        simpa using this

/-!
Engine-side iterator handle (`leveldb_iterator_t`), modelled from the
engine contract: the keyspace is a list of entries sorted in the
comparator's order, the cursor is an index, and an index past the end is
the invalid state.  `junkKey`/`junkVal` stand for whatever bytes the
engine's key/value buffers hold when the cursor is invalid: the C calls
`leveldb_iter_key`/`leveldb_iter_value` require a valid cursor and return
unspecified memory otherwise, which the model keeps abstract as fields.
-/

/-- Engine iterator handle: entries of the keyspace (sorted), cursor
position, and the buffer contents observed through an invalid cursor. -/
structure leveldb_iterator_t where
  entries : List (Bytes × Bytes)
  pos : Nat
  junkKey : Bytes
  junkVal : Bytes
deriving DecidableEq

/-- Engine validity check: the cursor sits on an entry. -/
def leveldb_iter_valid (it : leveldb_iterator_t) : Bool :=
  it.pos < it.entries.length

/-- Engine step: move the cursor one entry forward (an invalid cursor
stays invalid). -/
def leveldb_iter_next (it : leveldb_iterator_t) : leveldb_iterator_t :=
  { it with pos := it.pos + 1 }

/-- Engine seek: position on the first entry with key at least `k`. -/
def leveldb_iter_seek (it : leveldb_iterator_t) (k : Bytes) : leveldb_iterator_t :=
  { it with pos := seekPos k it.entries }

/-- Engine seek to the first entry. -/
def leveldb_iter_seek_to_first (it : leveldb_iterator_t) : leveldb_iterator_t :=
  { it with pos := 0 }

/-- Engine seek to the last entry (invalid on an empty keyspace). -/
def leveldb_iter_seek_to_last (it : leveldb_iterator_t) : leveldb_iterator_t :=
  { it with pos := it.entries.length - 1 }

/-- Engine key read: the entry's key when the cursor is valid, otherwise
the (stale, unspecified) buffer contents. -/
def leveldb_iter_key (it : leveldb_iterator_t) : Bytes :=
  match it.entries[it.pos]? with
  | some e => e.1
  | none => it.junkKey

/-- Engine value read, symmetric to `leveldb_iter_key`. -/
def leveldb_iter_value (it : leveldb_iterator_t) : Bytes :=
  match it.entries[it.pos]? with
  | some e => e.2
  | none => it.junkVal

/-!
The Rust wrapper `DatabaseIterator` from `src/database/iterator.rs`,
with its `LevelDBIterator` trait methods.  `new` seeks the fresh engine
iterator to the first entry and records `start = true`; the bound-setting
builder methods `from`/`to` are `from_bound`/`to_bound` here (`from` is a
reserved word).
-/

/-- The wrapper iterator: start flag, engine handle, optional bounds. -/
structure DatabaseIterator where
  start : Bool
  iter : leveldb_iterator_t
  fromKey : Option Bytes
  toKey : Option Bytes
deriving DecidableEq

/-- Constructor `DatabaseIterator::new`: seek the raw iterator to the
first entry and set the start flag. -/
def DatabaseIterator.new (it : leveldb_iterator_t) : DatabaseIterator :=
  { start := true
    iter := leveldb_iter_seek_to_first it
    fromKey := none
    toKey := none }

/-- Builder `from`: record the lower bound. -/
def DatabaseIterator.from_bound (s : DatabaseIterator) (k : Bytes) : DatabaseIterator :=
  { s with fromKey := some k }

/-- Builder `to`: record the upper bound. -/
def DatabaseIterator.to_bound (s : DatabaseIterator) (k : Bytes) : DatabaseIterator :=
  { s with toKey := some k }

/-- Trait method `valid`. -/
def DatabaseIterator.valid (s : DatabaseIterator) : Bool :=
  leveldb_iter_valid s.iter

/-- Trait method `seek`. -/
def DatabaseIterator.seek (s : DatabaseIterator) (k : Bytes) : DatabaseIterator :=
  { s with iter := leveldb_iter_seek s.iter k }

/-- Trait method `advance`: on the first call, seek to the lower bound if
one was set and clear the start flag; afterwards step the engine cursor.
Returns the updated state and the validity flag. -/
def DatabaseIterator.advance (s : DatabaseIterator) : DatabaseIterator × Bool :=
  let s' :=
    if !s.start then
      { s with iter := leveldb_iter_next s.iter }
    else
      match s.fromKey with
      | some k => { s with iter := leveldb_iter_seek s.iter k, start := false }
      | none => { s with start := false }
  (s', DatabaseIterator.valid s')

/-- Trait method `key`: reads the engine's key buffer with no validity
check, exactly as the source does. -/
def DatabaseIterator.key (s : DatabaseIterator) : Bytes :=
  leveldb_iter_key s.iter

/-- Trait method `value`: reads the engine's value buffer with no
validity check. -/
def DatabaseIterator.value (s : DatabaseIterator) : Bytes :=
  leveldb_iter_value s.iter

/-- Trait method `seek_to_last`: when an upper bound is set, seek to the
bound itself; otherwise seek to the true last entry. -/
def DatabaseIterator.seek_to_last (s : DatabaseIterator) : DatabaseIterator :=
  match s.toKey with
  | some k => DatabaseIterator.seek s k
  | none => { s with iter := leveldb_iter_seek_to_last s.iter }

/-- Method `last`: seek to the last position and return the key/value
pair unconditionally (no validity check before reading). -/
def DatabaseIterator.last (s : DatabaseIterator) : Option (Bytes × Bytes) :=
  let s' := DatabaseIterator.seek_to_last s
  some (DatabaseIterator.key s', DatabaseIterator.value s')

/-- The `Iterator::next` implementation: advance, then read the pair when
valid, `none` otherwise. -/
def DatabaseIterator.next (s : DatabaseIterator) : DatabaseIterator × Option (Bytes × Bytes) :=
  let (s', v) := DatabaseIterator.advance s
  (s', if v then some (DatabaseIterator.key s', DatabaseIterator.value s') else none)

/-- Run the `next` loop up to `n` times, collecting the yielded pairs and
stopping at the first `none`, as a Rust `for` loop over the iterator does. -/
def collectN : Nat → DatabaseIterator → List (Bytes × Bytes)
  | 0, _ => []
  | n + 1, s =>
    match DatabaseIterator.next s with
    | (s', some kv) => kv :: collectN n s'
    | (_, none) => []

/-!
Helper lemmas about the iterator state machine.
-/

theorem DatabaseIterator.next_eq (s : DatabaseIterator) :
    DatabaseIterator.next s =
      ((DatabaseIterator.advance s).1,
        if DatabaseIterator.valid (DatabaseIterator.advance s).1 then
          some (DatabaseIterator.key (DatabaseIterator.advance s).1,
                DatabaseIterator.value (DatabaseIterator.advance s).1)
        else none) := rfl

theorem DatabaseIterator.valid_iff (s : DatabaseIterator) :
    DatabaseIterator.valid s = true ↔ s.iter.pos < s.iter.entries.length := by
  simp [DatabaseIterator.valid, leveldb_iter_valid]

theorem DatabaseIterator.key_of_lt (s : DatabaseIterator)
    (h : s.iter.pos < s.iter.entries.length) :
    DatabaseIterator.key s = (s.iter.entries.get ⟨s.iter.pos, h⟩).1 := by
  simp [DatabaseIterator.key, leveldb_iter_key, List.getElem?_eq_getElem h]

theorem DatabaseIterator.value_of_lt (s : DatabaseIterator)
    (h : s.iter.pos < s.iter.entries.length) :
    DatabaseIterator.value s = (s.iter.entries.get ⟨s.iter.pos, h⟩).2 := by
  simp [DatabaseIterator.value, leveldb_iter_value, List.getElem?_eq_getElem h]

theorem byteLe_get_of_seekPos_le (a : Bytes) (l : List (Bytes × Bytes))
    (hs : List.Pairwise (fun p q : Bytes × Bytes => byteLe p.1 q.1) l)
    (p : Nat) (hp : seekPos a l ≤ p) (hlen : p < l.length) :
    byteLe a (l.get ⟨p, hlen⟩).1 := by
  rcases Nat.lt_or_ge (seekPos a l) p with h | h
  · have h1 := seekPos_found a l (Nat.lt_trans h hlen)
    have h2 := List.pairwise_iff_get.mp hs ⟨seekPos a l, Nat.lt_trans h hlen⟩ ⟨p, hlen⟩
      (by simpa using h)
    exact byteLe_trans h1 h2
  · have hEq : seekPos a l = p := Nat.le_antisymm hp h
    subst hEq
    exact seekPos_found a l hlen

theorem collectN_mem_lower (a : Bytes) :
    ∀ (n : Nat) (s : DatabaseIterator),
      s.fromKey = some a →
      List.Pairwise (fun p q : Bytes × Bytes => byteLe p.1 q.1) s.iter.entries →
      (s.start = false → seekPos a s.iter.entries ≤ s.iter.pos) →
      ∀ kv ∈ collectN n s, byteLe a kv.1 := by
  intro n
  induction n with
  | zero =>
    intro s _ _ _ kv hkv
    simp [collectN] at hkv
  | succ m ih =>
    intro s hfrom hs hpos kv hkv
    by_cases hstart : s.start
    · have hadv : (DatabaseIterator.advance s).1 =
          { s with iter := leveldb_iter_seek s.iter a, start := false } := by
        simp [DatabaseIterator.advance, hstart, hfrom]
      by_cases hv : DatabaseIterator.valid (DatabaseIterator.advance s).1
      · have hcol : collectN (m + 1) s =
            (DatabaseIterator.key (DatabaseIterator.advance s).1,
              DatabaseIterator.value (DatabaseIterator.advance s).1)
              :: collectN m (DatabaseIterator.advance s).1 := by
          rw [collectN, DatabaseIterator.next_eq, if_pos hv]
        rw [hcol] at hkv
        have hlt : seekPos a s.iter.entries < s.iter.entries.length := by
          have := (DatabaseIterator.valid_iff _).mp hv
          rw [hadv] at this
          simpa [leveldb_iter_seek] using this
        rcases List.mem_cons.mp hkv with hhead | htail
        · subst hhead
          have hkey := DatabaseIterator.key_of_lt (DatabaseIterator.advance s).1
            (by rw [hadv]; simpa [leveldb_iter_seek] using hlt)
          rw [hkey]
          have : byteLe a (s.iter.entries.get ⟨seekPos a s.iter.entries, hlt⟩).1 :=
            seekPos_found a s.iter.entries hlt
          simpa [hadv, leveldb_iter_seek] using this
        · exact ih (DatabaseIterator.advance s).1
            (by rw [hadv]; exact hfrom)
            (by rw [hadv]; simpa [leveldb_iter_seek] using hs)
            (by intro _; rw [hadv]; simp [leveldb_iter_seek])
            kv htail
      · have hcol : collectN (m + 1) s = [] := by
          rw [collectN, DatabaseIterator.next_eq, if_neg hv]
        rw [hcol] at hkv
        simp at hkv
    · have hstart' : s.start = false := by simpa using hstart
      have hadv : (DatabaseIterator.advance s).1 =
          { s with iter := leveldb_iter_next s.iter } := by
        simp [DatabaseIterator.advance, hstart']
      by_cases hv : DatabaseIterator.valid (DatabaseIterator.advance s).1
      · have hcol : collectN (m + 1) s =
            (DatabaseIterator.key (DatabaseIterator.advance s).1,
              DatabaseIterator.value (DatabaseIterator.advance s).1)
              :: collectN m (DatabaseIterator.advance s).1 := by
          rw [collectN, DatabaseIterator.next_eq, if_pos hv]
        rw [hcol] at hkv
        have hlt : s.iter.pos + 1 < s.iter.entries.length := by
          have := (DatabaseIterator.valid_iff _).mp hv
          rw [hadv] at this
          simpa [leveldb_iter_next] using this
        have hple : seekPos a s.iter.entries ≤ s.iter.pos + 1 :=
          Nat.le_succ_of_le (hpos hstart')
        rcases List.mem_cons.mp hkv with hhead | htail
        · subst hhead
          have hkey := DatabaseIterator.key_of_lt (DatabaseIterator.advance s).1
            (by rw [hadv]; simpa [leveldb_iter_next] using hlt)
          rw [hkey]
          have : byteLe a (s.iter.entries.get ⟨s.iter.pos + 1, hlt⟩).1 :=
            byteLe_get_of_seekPos_le a s.iter.entries hs (s.iter.pos + 1) hple hlt
          simpa [hadv, leveldb_iter_next] using this
        · exact ih (DatabaseIterator.advance s).1
            (by rw [hadv]; exact hfrom)
            (by rw [hadv]; simpa [leveldb_iter_next] using hs)
            (by intro _; rw [hadv]; simpa [leveldb_iter_next] using hple)
            kv htail
      · have hcol : collectN (m + 1) s = [] := by
          rw [collectN, DatabaseIterator.next_eq, if_neg hv]
        rw [hcol] at hkv
        simp at hkv

/-!
Claims about the iterator cursor.
-/

/-- C1 counterexample: on the keyspace with entries for keys `[0]` and
`[1]`, an iterator bounded by `from = [0]`, `to = [1]` (with `[0] ≤ [1]`)
still yields the pair with key `[1]`, which is not strictly below the
upper bound — the `next`/`advance` loop never consults the `to` bound. -/
theorem bounded_iteration_cex :
    byteLe [0] [1] ∧
    (([1], [11]) ∈ collectN 3
      (((DatabaseIterator.new ⟨[([0], [10]), ([1], [11])], 0, [], []⟩).from_bound
        [0]).to_bound [1])) ∧
    ¬ byteLt ([1] : Bytes) [1] := by
  decide

/-- C1 (amended): for an iterator over a keyspace sorted in the bytewise
order, seeded with `from = a` and `to = b`, every pair yielded by the
`next` loop has a key `k` with `a ≤ k`; the lower bound is enforced by the
initial seek, while the upper bound is not checked during iteration. -/
theorem bounded_iteration_lower (entries : List (Bytes × Bytes))
    (j1 j2 a b : Bytes) (n : Nat)
    (hs : List.Pairwise (fun p q : Bytes × Bytes => byteLe p.1 q.1) entries) :
    ∀ kv ∈ collectN n
      (((DatabaseIterator.new ⟨entries, 0, j1, j2⟩).from_bound a).to_bound b),
      byteLe a kv.1 := by
  apply collectN_mem_lower a n
  · rfl
  · simpa [DatabaseIterator.new, DatabaseIterator.from_bound, DatabaseIterator.to_bound,
      leveldb_iter_seek_to_first] using hs
  · intro h
    simp [DatabaseIterator.new, DatabaseIterator.from_bound,
      DatabaseIterator.to_bound] at h

/-- Witness for the amended C1: instantiating at a concrete sorted
keyspace and bounds shows the second yielded key is above the lower bound. -/
theorem bounded_iteration_lower_witness : byteLe [3] [5] :=
  bounded_iteration_lower [([3], [4]), ([5], [6])] [] [] [3] [9] 3
    (by decide) ([5], [6]) (by decide)

/-- C2 counterexample: on an empty keyspace the fresh cursor is invalid,
yet `key` returns the engine's stale buffer contents and `last` returns
`some` of those buffers — data, not a loud error — while `next` merely
returns `none` without any error. -/
theorem invalid_cursor_cex :
    DatabaseIterator.valid (DatabaseIterator.new ⟨[], 0, [7], [8]⟩) = false ∧
    DatabaseIterator.last (DatabaseIterator.new ⟨[], 0, [7], [8]⟩) = some ([7], [8]) ∧
    DatabaseIterator.key (DatabaseIterator.new ⟨[], 0, [7], [8]⟩) = [7] ∧
    (DatabaseIterator.next (DatabaseIterator.new ⟨[], 0, [7], [8]⟩)).2 = none := by
  decide

/-- C2 (amended): on an invalid cursor (past the end, start flag
consumed), `next` returns `none` without raising any error and leaves the
cursor invalid (terminal until a re-seek), and `key`/`value` perform no
validity check: they return whatever the engine's key/value buffers hold
rather than failing. -/
theorem invalid_cursor_silent (s : DatabaseIterator)
    (hstart : s.start = false) (hinv : DatabaseIterator.valid s = false) :
    (DatabaseIterator.next s).2 = none ∧
    (DatabaseIterator.next s).1.start = false ∧
    DatabaseIterator.valid (DatabaseIterator.next s).1 = false ∧
    DatabaseIterator.key s = s.iter.junkKey ∧
    DatabaseIterator.value s = s.iter.junkVal := by
  have hge : s.iter.entries.length ≤ s.iter.pos := by
    have := (DatabaseIterator.valid_iff s)
    by_contra hlt
    rw [(DatabaseIterator.valid_iff s).mpr (Nat.lt_of_not_le hlt)] at hinv
    exact absurd hinv (by simp)
  have hadv : (DatabaseIterator.advance s).1 =
      { s with iter := leveldb_iter_next s.iter } := by
    simp [DatabaseIterator.advance, hstart]
  have hinv' : DatabaseIterator.valid (DatabaseIterator.advance s).1 = false := by
    rw [hadv]
    simp only [DatabaseIterator.valid, leveldb_iter_valid, leveldb_iter_next]
    simp only [decide_eq_false_iff_not, Nat.not_lt]
    omega
  refine ⟨?_, ?_, ?_, ?_, ?_⟩
  · rw [DatabaseIterator.next_eq, if_neg (by simp [hinv'])]
  · rw [DatabaseIterator.next_eq]
    simp only [hadv]
    exact hstart
  · rw [DatabaseIterator.next_eq]
    simpa using hinv'
  · have : s.iter.entries[s.iter.pos]? = none := List.getElem?_eq_none hge
    simp [DatabaseIterator.key, leveldb_iter_key, this]
  · have : s.iter.entries[s.iter.pos]? = none := List.getElem?_eq_none hge
    simp [DatabaseIterator.value, leveldb_iter_value, this]

/-- Witness for the amended C2 at a concrete exhausted cursor. -/
theorem invalid_cursor_silent_witness :
    (DatabaseIterator.next ⟨false, ⟨[([0], [1])], 5, [7], [8]⟩, none, none⟩).2 = none ∧
    (DatabaseIterator.next ⟨false, ⟨[([0], [1])], 5, [7], [8]⟩, none, none⟩).1.start = false ∧
    DatabaseIterator.valid
      (DatabaseIterator.next ⟨false, ⟨[([0], [1])], 5, [7], [8]⟩, none, none⟩).1 = false ∧
    DatabaseIterator.key ⟨false, ⟨[([0], [1])], 5, [7], [8]⟩, none, none⟩ = [7] ∧
    DatabaseIterator.value ⟨false, ⟨[([0], [1])], 5, [7], [8]⟩, none, none⟩ = [8] :=
  invalid_cursor_silent ⟨false, ⟨[([0], [1])], 5, [7], [8]⟩, none, none⟩ rfl (by decide)

/-- C8 counterexample: keyspace with keys `[0]` and `[2]` and upper bound
`to = [1]`: `seek_to_last` seeks to the bound itself, the engine lands on
the first key at or above it, and `last` reports the pair with key `[2]`,
which lies at-or-beyond the bound. -/
theorem seek_to_last_cex :
    DatabaseIterator.last
      ((DatabaseIterator.new ⟨[([0], [5]), ([2], [6])], 0, [], []⟩).to_bound [1])
      = some ([2], [6]) ∧
    ¬ byteLt ([2] : Bytes) [1] := by
  decide

/-- C8 (amended): with an upper bound `to = b` set, `seek_to_last` seeks
to `b` itself, landing the cursor on the first entry whose key is at
least `b` (no step back into the range), which may be at or beyond the
bound; without a bound, it positions on the true last entry, which `last`
then returns. -/
theorem seek_to_last_bound_spec (entries : List (Bytes × Bytes))
    (j1 j2 b : Bytes) (hne : entries ≠ []) :
    ((DatabaseIterator.seek_to_last
        ((DatabaseIterator.new ⟨entries, 0, j1, j2⟩).to_bound b)).iter.pos
      = seekPos b entries) ∧
    (∀ h : seekPos b entries < entries.length,
      byteLe b (entries.get ⟨seekPos b entries, h⟩).1) ∧
    (∀ i, ∀ _hi : i < seekPos b entries, ∀ hl : i < entries.length,
      ¬ byteLe b (entries.get ⟨i, hl⟩).1) ∧
    ((DatabaseIterator.seek_to_last
        (DatabaseIterator.new ⟨entries, 0, j1, j2⟩)).iter.pos
      = entries.length - 1) ∧
    DatabaseIterator.last (DatabaseIterator.new ⟨entries, 0, j1, j2⟩)
      = some (entries.getLast hne) := by
  have hlen : 0 < entries.length := List.length_pos.mpr hne
  refine ⟨?_, ?_, ?_, ?_, ?_⟩
  · simp [DatabaseIterator.seek_to_last, DatabaseIterator.to_bound,
      DatabaseIterator.new, DatabaseIterator.seek, leveldb_iter_seek,
      leveldb_iter_seek_to_first]
  · intro h
    exact seekPos_found b entries h
  · intro i hi hl
    exact seekPos_min b entries i hi hl
  · simp [DatabaseIterator.seek_to_last, DatabaseIterator.new,
      leveldb_iter_seek_to_last, leveldb_iter_seek_to_first]
  · have hpos : entries.length - 1 < entries.length := Nat.sub_lt hlen Nat.one_pos
    have hget : entries[entries.length - 1]? = some (entries.get ⟨entries.length - 1, hpos⟩) := by
      simp [List.getElem?_eq_getElem hpos]
    have hlast : entries.getLast hne = entries.get ⟨entries.length - 1, hpos⟩ := by
      simp [List.getLast_eq_getElem entries hne]
    simp only [DatabaseIterator.last, DatabaseIterator.seek_to_last,
      DatabaseIterator.new, DatabaseIterator.key, DatabaseIterator.value,
      leveldb_iter_key, leveldb_iter_value, leveldb_iter_seek_to_last,
      leveldb_iter_seek_to_first, hget, hlast]

/-- Witness for the amended C8 at a concrete keyspace and bound. -/
theorem seek_to_last_bound_spec_witness :
    ((DatabaseIterator.seek_to_last
        ((DatabaseIterator.new ⟨[([0], [5]), ([2], [6])], 0, [], []⟩).to_bound [1])).iter.pos
      = seekPos [1] [([0], [5]), ([2], [6])]) ∧
    DatabaseIterator.last (DatabaseIterator.new ⟨[([0], [5]), ([2], [6])], 0, [], []⟩)
      = some (([([0], [5]), ([2], [6])] : List (Bytes × Bytes)).getLast (by decide)) :=
  ⟨(seek_to_last_bound_spec [([0], [5]), ([2], [6])] [] [] [1] (by decide)).1,
    (seek_to_last_bound_spec [([0], [5]), ([2], [6])] [] [] [1] (by decide)).2.2.2.2⟩

/-!
Key-value state of the engine and the option-translation layer from
`src/database/options.rs`, `src/database/mod.rs`, `src/database/batch.rs`
and `src/database/snapshots.rs`.  The engine keeps the current mapping
and the saved snapshot views; a snapshot handle is an index into the
saved views.  Engine calls take the reported error as an explicit
`Option String` input, standing for the error out-parameter the engine
may fill.
-/

/-- Association-list view of the engine's key-value contents: the first
entry for a key is its current value. -/
abbrev KV := List (Bytes × Bytes)

/-- Current value of a key. -/
def kvLookup (k : Bytes) : KV → Option Bytes
  | [] => none
  | (k', v) :: rest => if k' = k then some v else kvLookup k rest

/-- Engine-side effect of a put: the new binding shadows any older one. -/
def kvPut (k v : Bytes) (s : KV) : KV := (k, v) :: s

/-- Engine-side effect of a delete: every binding of the key is removed. -/
def kvDelete (k : Bytes) (s : KV) : KV :=
  s.filter (fun p => decide (p.1 ≠ k))

/-- Engine instance state: current contents plus the saved point-in-time
views created by `leveldb_create_snapshot`. -/
structure EngineState where
  cur : KV
  snaps : List KV
deriving DecidableEq

/-- Error channel. Modelled from the spec: `src/database/error.rs` is not
in the sources; per the error-handling design, an engine failure arrives
as an owned message string surfaced verbatim. -/
structure Error where
  message : String
deriving DecidableEq

/-- Constructor `Error::new_from_i8`, wrapping the engine's error string. -/
def Error.new_from_i8 (e : String) : Error := ⟨e⟩

/-- The Rust `Options` struct (fields from `src/database/options.rs`). -/
structure Options where
  create_if_missing : Bool
  error_if_exists : Bool
  paranoid_checks : Bool
  write_buffer_size : Option Nat
  max_open_files : Option Int
  block_size : Option Nat
  block_restart_interval : Option Int
  compression : Bool

/-- The Rust `WriteOptions` struct. -/
structure WriteOptions where
  sync : Bool

/-- The Rust `ReadOptions` struct: checksum and cache flags plus the
optionally bound snapshot handle (the field assigned by
`Snapshot::get`/`Snapshot::iter` in `src/database/snapshots.rs`). -/
structure ReadOptions where
  verify_checksums : Bool
  fill_cache : Bool
  snapshot : Option Nat

/-- Native write-options handle. -/
structure CWriteOptions where
  sync : Bool

/-- Native read-options handle: the engine reads through the snapshot
when one is installed, through the current state otherwise. -/
structure CReadOptions where
  verify_checksums : Bool
  fill_cache : Bool
  snapshot : Option Nat

/-- Translation `c_writeoptions`: create the native handle and set
`sync`. -/
def c_writeoptions (options : WriteOptions) : CWriteOptions :=
  { sync := options.sync }

/-- Translation `c_readoptions` exactly as in `src/database/options.rs`:
create the native handle and set `verify_checksums` and `fill_cache` —
and nothing else, so the freshly created handle's null snapshot is kept
no matter what `options.snapshot` holds. -/
def c_readoptions (options : ReadOptions) : CReadOptions :=
  { verify_checksums := options.verify_checksums
    fill_cache := options.fill_cache
    snapshot := none }

/-- Engine read: through the saved snapshot view when the native read
options carry a snapshot handle, through the current contents otherwise.
The result is the found value (null pointer becomes `none`) paired with
the error out-parameter. -/
def leveldb_get (db : EngineState) (ro : CReadOptions) (k : Bytes)
    (err : Option String) : Option Bytes × Option String :=
  match err with
  | some e => (none, some e)
  | none =>
    match ro.snapshot with
    | some h => (kvLookup k (db.snaps.getD h []), none)
    | none => (kvLookup k db.cur, none)

/-- Engine put. -/
def leveldb_put (db : EngineState) (_wo : CWriteOptions) (k v : Bytes)
    (err : Option String) : EngineState × Option String :=
  match err with
  | some e => (db, some e)
  | none => ({ db with cur := kvPut k v db.cur }, none)

/-- Engine delete. -/
def leveldb_delete (db : EngineState) (_wo : CWriteOptions) (k : Bytes)
    (err : Option String) : EngineState × Option String :=
  match err with
  | some e => (db, some e)
  | none => ({ db with cur := kvDelete k db.cur }, none)

/-- Engine snapshot creation: save the current view and hand out its
index as the snapshot handle. -/
def leveldb_create_snapshot (db : EngineState) : EngineState × Nat :=
  ({ db with snaps := db.snaps ++ [db.cur] }, db.snaps.length)

/-- Conversion `Bytes::from_raw`. Modelled from the spec:
`src/database/bytes.rs` is not in the sources; per the data model, a null
result pointer is the explicit empty result `none`, any other pointer is
the owned buffer. -/
def Bytes.from_raw (raw : Option Bytes) : Option Bytes := raw

/-- Method `Database::get_bytes` from `src/database/mod.rs`: translate
the read options, call the engine, then return `Ok` of the (possibly
absent) buffer when the error out-parameter stayed null and `Err`
otherwise. -/
def Database.get_bytes (db : EngineState) (options : ReadOptions) (key : Bytes)
    (err : Option String) : Except Error (Option Bytes) :=
  let cro := c_readoptions options
  let res := leveldb_get db cro key err
  match res.2 with
  | none => Except.ok (Bytes.from_raw res.1)
  | some e => Except.error (Error.new_from_i8 e)

/-- Method `Database::get`: `get_bytes` with the buffer converted to an
owned vector. -/
def Database.get (db : EngineState) (options : ReadOptions) (key : Bytes)
    (err : Option String) : Except Error (Option Bytes) :=
  (Database.get_bytes db options key err).map (fun val => val.map (fun b => b))

/-- Method `Database::put`: translate the write options, call the engine,
map the error out-parameter to the result. -/
def Database.put (db : EngineState) (options : WriteOptions) (key value : Bytes)
    (err : Option String) : EngineState × Except Error Unit :=
  let cwo := c_writeoptions options
  let res := leveldb_put db cwo key value err
  match res.2 with
  | none => (res.1, Except.ok ())
  | some e => (res.1, Except.error (Error.new_from_i8 e))

/-- Method `Database::delete`, symmetric to `Database::put`. -/
def Database.delete (db : EngineState) (options : WriteOptions) (key : Bytes)
    (err : Option String) : EngineState × Except Error Unit :=
  let cwo := c_writeoptions options
  let res := leveldb_delete db cwo key err
  match res.2 with
  | none => (res.1, Except.ok ())
  | some e => (res.1, Except.error (Error.new_from_i8 e))

/-- The Rust `Snapshot` struct: the raw snapshot handle (the back
reference to the database is implicit in our explicit state passing). -/
structure Snapshot where
  raw : Nat

/-- Method `Snapshots::snapshot` on the database. -/
def Snapshots.snapshot (db : EngineState) : EngineState × Snapshot :=
  let res := leveldb_create_snapshot db
  (res.1, ⟨res.2⟩)

/-- Method `Snapshot::get` from `src/database/snapshots.rs`: insert this
snapshot into the read options, then delegate to `Database::get`. -/
def Snapshot.get (s : Snapshot) (db : EngineState) (options : ReadOptions)
    (key : Bytes) (err : Option String) : Except Error (Option Bytes) :=
  Database.get db { options with snapshot := some s.raw } key err

/-- Default read options (`verify_checksums = false`, `fill_cache = true`,
no snapshot). -/
def ReadOptions.default : ReadOptions :=
  { verify_checksums := false, fill_cache := true, snapshot := none }

/-- Default write options (`sync = false`). -/
def WriteOptions.default : WriteOptions := { sync := false }

/-!
Write batches (`src/database/batch.rs`).  The engine-side batch handle is
the recorded operation list in insertion order; `leveldb_write` applies
the whole list atomically or, when it reports an error, leaves the state
untouched (the engine's documented all-or-nothing contract).
-/

/-- A recorded batch operation. -/
inductive BatchOp
  | putOp (key value : Bytes)
  | deleteOp (key : Bytes)
deriving DecidableEq

/-- Engine call creating an empty batch. -/
def leveldb_writebatch_create : List BatchOp := []

/-- Engine call recording a put. -/
def leveldb_writebatch_put (b : List BatchOp) (k v : Bytes) : List BatchOp :=
  b ++ [BatchOp.putOp k v]

/-- Engine call recording a delete. -/
def leveldb_writebatch_delete (b : List BatchOp) (k : Bytes) : List BatchOp :=
  b ++ [BatchOp.deleteOp k]

/-- Engine call clearing the batch. -/
def leveldb_writebatch_clear (_b : List BatchOp) : List BatchOp := []

/-- The Rust `Writebatch` struct owning the engine batch handle. -/
structure Writebatch where
  writebatch : List BatchOp
deriving DecidableEq

/-- Constructor `Writebatch::new`. -/
def Writebatch.new : Writebatch := ⟨leveldb_writebatch_create⟩

/-- Method `Writebatch::put`. -/
def Writebatch.put (b : Writebatch) (k v : Bytes) : Writebatch :=
  ⟨leveldb_writebatch_put b.writebatch k v⟩

/-- Method `Writebatch::delete`. -/
def Writebatch.delete (b : Writebatch) (k : Bytes) : Writebatch :=
  ⟨leveldb_writebatch_delete b.writebatch k⟩

/-- Method `Writebatch::clear`. -/
def Writebatch.clear (b : Writebatch) : Writebatch :=
  ⟨leveldb_writebatch_clear b.writebatch⟩

/-- Effect of one recorded operation on the engine contents. -/
def applyOp (s : KV) : BatchOp → KV
  | BatchOp.putOp k v => kvPut k v s
  | BatchOp.deleteOp k => kvDelete k s

/-- Sequential effect of a whole batch, in insertion order. -/
def applyBatch (s : KV) (b : List BatchOp) : KV := b.foldl applyOp s

/-- Engine batch write: atomic per the engine contract — on success the
whole batch is applied, on failure the state is untouched. -/
def leveldb_write (db : EngineState) (_wo : CWriteOptions) (b : List BatchOp)
    (err : Option String) : EngineState × Option String :=
  match err with
  | some e => (db, some e)
  | none => ({ db with cur := applyBatch db.cur b }, none)

/-- The `Batch::write` implementation for `Database`: translate the write
options, call `leveldb_write`, map the error out-parameter. -/
def Batch.write (db : EngineState) (options : WriteOptions) (batch : Writebatch)
    (err : Option String) : EngineState × Except Error Unit :=
  let cwo := c_writeoptions options
  let res := leveldb_write db cwo batch.writebatch err
  match res.2 with
  | none => (res.1, Except.ok ())
  | some e => (res.1, Except.error (Error.new_from_i8 e))

/-!
Lookup lemmas for the round-trip claims.
-/

theorem kvLookup_kvPut (k v : Bytes) (s : KV) :
    kvLookup k (kvPut k v s) = some v := by
  simp [kvPut, kvLookup]

theorem kvLookup_kvDelete (k : Bytes) (s : KV) :
    kvLookup k (kvDelete k s) = none := by
  induction s with
  | nil => rfl
  | cons p rest ih =>
    by_cases h : p.1 = k
    · simpa [kvDelete, List.filter_cons, h] using ih
    · simpa [kvDelete, List.filter_cons, h, kvLookup] using ih

/-!
Claims about reads, writes, snapshots and batches.
-/

/-- C3 (code bug): after creating a snapshot of the state mapping key
`[0]` to `[1]` and then writing `[2]` to that key, a read through the
snapshot returns the later value `[2]` — the saved view (which still
holds `[1]`) is never consulted, because `c_readoptions` drops the
snapshot bound into the Rust `ReadOptions` instead of installing it into
the native handle. -/
theorem snapshot_get_sees_later_write :
    Snapshot.get (Snapshots.snapshot ⟨[([0], [1])], []⟩).2
      (Database.put (Snapshots.snapshot ⟨[([0], [1])], []⟩).1
        WriteOptions.default [0] [2] none).1
      ReadOptions.default [0] none = Except.ok (some [2]) ∧
    kvLookup [0]
      ((Snapshots.snapshot ⟨[([0], [1])], []⟩).1.snaps.getD
        (Snapshots.snapshot ⟨[([0], [1])], []⟩).2.raw []) = some [1] := by
  exact ⟨rfl, rfl⟩

/-- C4: applying a write batch through `Batch::write` is all-or-nothing:
when the call returns `Err` the engine state is exactly the prior state
(so no recorded operation is visible to any subsequent read), and when
it returns `Ok` the state is the sequential application of every
recorded operation. -/
theorem write_atomic (db : EngineState) (wo : WriteOptions) (batch : Writebatch)
    (err : Option String) :
    (∀ e, (Batch.write db wo batch err).2 = Except.error e →
      (Batch.write db wo batch err).1 = db ∧
      ∀ ro k err2, Database.get (Batch.write db wo batch err).1 ro k err2
        = Database.get db ro k err2) ∧
    ((Batch.write db wo batch err).2 = Except.ok () →
      (Batch.write db wo batch err).1.cur = applyBatch db.cur batch.writebatch) := by
  cases err <;> simp [Batch.write, leveldb_write]

/-- Witness for C4: a concrete two-operation batch leaves the state
untouched when the engine reports an error and applies both operations
when it succeeds. -/
theorem write_atomic_witness :
    (Batch.write ⟨[([1], [9])], []⟩ WriteOptions.default
      ⟨[BatchOp.putOp [0] [5], BatchOp.deleteOp [1]]⟩ (some "boom")).1
      = ⟨[([1], [9])], []⟩ ∧
    (Batch.write ⟨[([1], [9])], []⟩ WriteOptions.default
      ⟨[BatchOp.putOp [0] [5], BatchOp.deleteOp [1]]⟩ none).1.cur
      = applyBatch [([1], [9])] [BatchOp.putOp [0] [5], BatchOp.deleteOp [1]] :=
  ⟨((write_atomic ⟨[([1], [9])], []⟩ WriteOptions.default
      ⟨[BatchOp.putOp [0] [5], BatchOp.deleteOp [1]]⟩ (some "boom")).1
      (Error.new_from_i8 "boom") rfl).1,
    (write_atomic ⟨[([1], [9])], []⟩ WriteOptions.default
      ⟨[BatchOp.putOp [0] [5], BatchOp.deleteOp [1]]⟩ none).2 rfl⟩

/-- C5: a successful `put(k, v)` followed by `get(k)` returns
`Some(v)`, and after a successful `delete(k)`, `get(k)` returns `None`,
for every key, value, prior state and options. -/
theorem put_get_delete_roundtrip (db db' db'' : EngineState) (wo : WriteOptions)
    (ro : ReadOptions) (k v : Bytes) (e1 e2 : Option String) :
    (Database.put db wo k v e1 = (db', Except.ok ()) →
      Database.get db' ro k none = Except.ok (some v)) ∧
    (Database.delete db wo k e2 = (db'', Except.ok ()) →
      Database.get db'' ro k none = Except.ok none) := by
  constructor
  · intro h
    cases e1 with
    | some e => simp [Database.put, leveldb_put] at h
    | none =>
      have hdb : ({ db with cur := kvPut k v db.cur } : EngineState) = db' := by
        have := congrArg Prod.fst h
        simpa [Database.put, leveldb_put] using this
      rw [← hdb]
      simp [Database.get, Database.get_bytes, leveldb_get, c_readoptions,
        Bytes.from_raw, kvLookup_kvPut, Except.map]
  · intro h
    cases e2 with
    | some e => simp [Database.delete, leveldb_delete] at h
    | none =>
      have hdb : ({ db with cur := kvDelete k db.cur } : EngineState) = db'' := by
        have := congrArg Prod.fst h
        simpa [Database.delete, leveldb_delete] using this
      rw [← hdb]
      simp [Database.get, Database.get_bytes, leveldb_get, c_readoptions,
        Bytes.from_raw, kvLookup_kvDelete, Except.map]

/-- Witness for C5 at a concrete state, key and value. -/
theorem put_get_delete_roundtrip_witness :
    Database.get (Database.put ⟨[], []⟩ WriteOptions.default [4] [7] none).1
      ReadOptions.default [4] none = Except.ok (some [7]) ∧
    Database.get (Database.delete ⟨[([4], [7])], []⟩ WriteOptions.default [4] none).1
      ReadOptions.default [4] none = Except.ok none :=
  ⟨(put_get_delete_roundtrip ⟨[], []⟩
      (Database.put ⟨[], []⟩ WriteOptions.default [4] [7] none).1
      ⟨[], []⟩ WriteOptions.default ReadOptions.default [4] [7] none none).1 rfl,
    (put_get_delete_roundtrip ⟨[([4], [7])], []⟩ ⟨[([4], [7])], []⟩
      (Database.delete ⟨[([4], [7])], []⟩ WriteOptions.default [4] none).1
      WriteOptions.default ReadOptions.default [4] [7] none none).2 rfl⟩

/-- C6: when a key is absent, `get_bytes` (and `get`) return `Ok(None)`
— absence is an explicit empty result, not an error — and an `Err` is
produced exactly when the engine filled the error out-parameter. -/
theorem get_absent_not_error (db : EngineState) (ro : ReadOptions) (k : Bytes)
    (habs : kvLookup k db.cur = none) :
    Database.get_bytes db ro k none = Except.ok none ∧
    Database.get db ro k none = Except.ok none ∧
    (∀ err e, Database.get_bytes db ro k err = Except.error e → err = some e.message) := by
  refine ⟨?_, ?_, ?_⟩
  · simp [Database.get_bytes, leveldb_get, c_readoptions, Bytes.from_raw, habs]
  · simp [Database.get, Database.get_bytes, leveldb_get, c_readoptions,
      Bytes.from_raw, habs, Except.map]
  · intro err e h
    cases err with
    | none => simp [Database.get_bytes, leveldb_get, c_readoptions, Bytes.from_raw] at h
    | some e' =>
      simp [Database.get_bytes, leveldb_get, c_readoptions, Error.new_from_i8] at h
      simp [← h]

/-- Witness for C6 on the empty database. -/
theorem get_absent_not_error_witness :
    Database.get_bytes ⟨[], []⟩ ReadOptions.default [0] none = Except.ok none :=
  (get_absent_not_error ⟨[], []⟩ ReadOptions.default [0] rfl).1

/-!
Native-handle lifecycle, as event traces.  `Database::open` and
`Database::open_with_comparator` (`src/database/mod.rs`) are linearized
into the sequence of native calls they perform; teardown of the Rust
`Database` struct follows the language rule that struct fields drop in
declaration order (`database`, then `comparator`, then `options`), which
is exactly the order the claim cites.
-/

/-- A native call relevant to handle lifecycle; `engineCall` stands for
any other engine call (reads, writes, iterator and snapshot calls,
including any compare callbacks the engine makes during them). -/
inductive Event
  | optionsCreate
  | optionsDestroy
  | comparatorCreate
  | comparatorDestroy
  | engineOpen
  | engineClose
  | engineCall
deriving DecidableEq

/-- Native calls of `Database::open`, in order: build the options handle,
attempt the engine open, destroy the options handle (this happens before
the error check, hence on both paths).  The boolean records whether the
open succeeded, that is whether the error out-parameter stayed null. -/
def Database.open_events (openFails : Bool) : List Event × Bool :=
  ([Event.optionsCreate, Event.engineOpen, Event.optionsDestroy], !openFails)

/-- Native calls of `Database::open_with_comparator`: create the native
comparator first, build the options handle referencing it, attempt the
engine open, destroy the options handle.  On the error path the function
returns `Err` with no further native call: the comparator handle is only
wrapped into the (destroy-on-drop) `RawComparator` on the success path. -/
def Database.open_with_comparator_events (openFails : Bool) : List Event × Bool :=
  ([Event.comparatorCreate, Event.optionsCreate, Event.engineOpen,
    Event.optionsDestroy], !openFails)

/-- C7 (code bug): when the engine open fails, `open` does destroy its
translated options handle, and so does `open_with_comparator` — but the
native comparator handle `open_with_comparator` created before the open
attempt is never destroyed on that path: it leaks. -/
theorem open_error_leaks_comparator :
    (Database.open_events true).2 = false ∧
    Event.optionsDestroy ∈ (Database.open_events true).1 ∧
    (Database.open_with_comparator_events true).2 = false ∧
    Event.comparatorCreate ∈ (Database.open_with_comparator_events true).1 ∧
    Event.optionsDestroy ∈ (Database.open_with_comparator_events true).1 ∧
    Event.comparatorDestroy ∉ (Database.open_with_comparator_events true).1 := by
  decide

/-- Teardown of the Rust `Database` struct: fields drop in declaration
order, so `RawDB`'s drop closes the engine instance first, then
`RawComparator`'s drop destroys the comparator handle; the retained
`Options` value holds no native handle. -/
def Database.drop_events (hasComparator : Bool) : List Event :=
  [Event.engineClose] ++ (if hasComparator then [Event.comparatorDestroy] else [])

/-- A public operation performed while the database is open. -/
inductive DbOp
  | putOp
  | deleteOp
  | getOp
  | iterOp
  | writeOp
  | compactOp

/-- Native calls of one public operation: each write/read path builds a
per-call options handle, calls the engine, and destroys that handle;
`compact` calls the engine directly.  None of them closes the engine or
destroys the comparator. -/
def DbOp.events : DbOp → List Event
  | DbOp.putOp => [Event.optionsCreate, Event.engineCall, Event.optionsDestroy]
  | DbOp.deleteOp => [Event.optionsCreate, Event.engineCall, Event.optionsDestroy]
  | DbOp.getOp => [Event.optionsCreate, Event.engineCall, Event.optionsDestroy]
  | DbOp.iterOp => [Event.optionsCreate, Event.engineCall, Event.optionsDestroy]
  | DbOp.writeOp => [Event.optionsCreate, Event.engineCall, Event.optionsDestroy]
  | DbOp.compactOp => [Event.engineCall]

/-- Concatenated native calls of a sequence of operations. -/
def opsEvents : List DbOp → List Event
  | [] => []
  | op :: rest => DbOp.events op ++ opsEvents rest

/-- Whole-session native-call trace for a database successfully opened
with a user comparator: the open calls, then the operations, then the
teardown when the `Database` is dropped. -/
def session_events (ops : List DbOp) : List Event :=
  (Database.open_with_comparator_events false).1 ++ opsEvents ops
    ++ Database.drop_events true

theorem opsEvents_no_teardown (ops : List DbOp) :
    Event.comparatorDestroy ∉ opsEvents ops ∧ Event.engineClose ∉ opsEvents ops := by
  induction ops with
  | nil => simp [opsEvents]
  | cons op rest ih =>
    constructor
    · intro h
      simp only [opsEvents] at h
      rcases List.mem_append.mp h with h1 | h2
      · cases op <;> simp [DbOp.events] at h1
      · exact ih.1 h2
    · intro h
      simp only [opsEvents] at h
      rcases List.mem_append.mp h with h1 | h2
      · cases op <;> simp [DbOp.events] at h1
      · exact ih.2 h2

/-- C9: for every session on a database opened with a user comparator,
the native comparator destroy appears exactly once in the whole trace, as
the final call of teardown, immediately after the engine instance is
closed — never while the database is open and never twice. -/
theorem comparator_destroyed_once_after_close (ops : List DbOp) :
    ∃ pre, session_events ops = pre ++ [Event.engineClose, Event.comparatorDestroy] ∧
      Event.comparatorDestroy ∉ pre ∧ Event.engineClose ∉ pre := by
  refine ⟨(Database.open_with_comparator_events false).1 ++ opsEvents ops, ?_, ?_, ?_⟩
  · simp [session_events, Database.drop_events, List.append_assoc]
  · intro h
    rcases List.mem_append.mp h with h1 | h2
    · simp [Database.open_with_comparator_events] at h1
    · exact (opsEvents_no_teardown ops).1 h2
  · intro h
    rcases List.mem_append.mp h with h1 | h2
    · simp [Database.open_with_comparator_events] at h1
    · exact (opsEvents_no_teardown ops).2 h2

/-!
The comparator bridge (`src/database/comparator.rs`).
-/

/-- The user-facing `Comparator` trait: a stable name and a total
ordering on decoded keys. -/
structure Comparator (K : Type) where
  name : String
  compare : K → K → Ordering

/-- The C compare callback installed by `create_comparator`: decode both
byte buffers to keys and map the user ordering's verdict to the native
-1/0/1 convention.  The decoding function `from_u8` lives in
`database/db_key.rs`, which is not among the sources, so it stays
abstract as the `decode` argument. -/
def comparator.compare {K : Type} (decode : Bytes → K) (c : Comparator K)
    (a b : Bytes) : Int :=
  match c.compare (decode a) (decode b) with
  | Ordering.lt => -1
  | Ordering.eq => 0
  | Ordering.gt => 1

/-- Native comparator handle as created by `leveldb_comparator_create`:
the installed compare callback together with the comparator's name. -/
structure leveldb_comparator_t (K : Type) where
  compare_fn : Bytes → Bytes → Int
  name_fn : String

/-- Function `create_comparator`: erase the user comparator behind the
callback triple handed to `leveldb_comparator_create`. -/
def create_comparator {K : Type} (decode : Bytes → K) (x : Comparator K) :
    leveldb_comparator_t K :=
  { compare_fn := comparator.compare decode x
    name_fn := x.name }

/-- C10: the compare callback installed by `create_comparator` returns
exactly -1, 0 or 1 according as the user comparator orders the decoded
keys Less, Equal or Greater — the user ordering crosses the native
boundary unchanged, for every comparator, decoder and pair of buffers. -/
theorem compare_callback_exact {K : Type} (decode : Bytes → K)
    (c : Comparator K) (a b : Bytes) :
    ((create_comparator decode c).compare_fn a b = comparator.compare decode c a b) ∧
    (comparator.compare decode c a b = -1 ↔ c.compare (decode a) (decode b) = Ordering.lt) ∧
    (comparator.compare decode c a b = 0 ↔ c.compare (decode a) (decode b) = Ordering.eq) ∧
    (comparator.compare decode c a b = 1 ↔ c.compare (decode a) (decode b) = Ordering.gt) := by
  refine ⟨rfl, ?_, ?_, ?_⟩ <;>
    cases h : c.compare (decode a) (decode b) <;>
    simp [comparator.compare, h]
